import Mathlib

set_option maxRecDepth 1000000

/-!
Verification of the ECDH (secp256k1) subsystem of react-native-quick-crypto.

The embedding follows the sources:
* `packages/react-native-quick-crypto/cpp/ecdh/HybridEcdh.cpp` (and the
  extended copy containing `computeSecretRaw`): session state, key import
  and export, validation and error behaviour;
* `packages/react-native-quick-crypto/src/ecdh.ts`: the TypeScript facade
  (format flags, generateKeys default);
* the OpenSSL curve primitives (`EC_POINT_mul`, `EC_POINT_oct2point`,
  `EC_POINT_point2oct`, `EVP_PKEY_derive`, `BN_bn2binpad`, `BN_bin2bn`)
  are not part of the repository; they are modelled from the spec
  (sections 4.2 and 4.4) over Mathlib's affine Weierstrass curve group.
-/

namespace QuickCrypto

/-! ### Modular exponentiation by squaring

`powMod m a e` computes `a ^ e % m` with a fuel-indexed binary recursion so
that the kernel can evaluate it on 256-bit inputs. -/

def powModAux (m a : ℕ) : ℕ → ℕ → ℕ
  | 0, _ => 1 % m
  | fuel + 1, e =>
    if e = 0 then 1 % m
    else
      let h := powModAux m (a * a % m) fuel (e / 2)
      if e % 2 = 1 then a % m * h % m else h

def powMod (m a e : ℕ) : ℕ := powModAux m a (e + 1) e

theorem powModAux_correct (m : ℕ) :
    ∀ fuel a e, e < 2 ^ fuel → powModAux m a fuel e = a ^ e % m := by
  intro fuel
  induction fuel with
  | zero =>
    intro a e he
    interval_cases e
    simp [powModAux]
  | succ fuel ih =>
    intro a e he
    rcases Nat.eq_zero_or_pos e with he0 | hepos
    · subst he0; simp [powModAux]
    · have hne : e ≠ 0 := Nat.pos_iff_ne_zero.mp hepos
      have hdiv : e / 2 < 2 ^ fuel := by
        have h2 : e < 2 ^ fuel * 2 := by
          rw [pow_succ] at he; exact he
        omega
      have hrec := ih (a * a % m) (e / 2) hdiv
      have hsq : (a * a % m) ^ (e / 2) % m = (a * a) ^ (e / 2) % m :=
        (Nat.pow_mod (a * a) (e / 2) m).symm
      have hpow : (a * a) ^ (e / 2) = a ^ (2 * (e / 2)) := by
        rw [mul_pow, two_mul, pow_add]
      rcases Nat.even_or_odd e with heven | hodd
      · have hmod : e % 2 = 0 := Nat.even_iff.mp heven
        have hsplit : 2 * (e / 2) = e := by omega
        have hstep : powModAux m a (fuel + 1) e = powModAux m (a * a % m) fuel (e / 2) := by
          simp [powModAux, hne, hmod]
        rw [hstep, hrec, hsq, hpow, hsplit]
      · have hmod : e % 2 = 1 := Nat.odd_iff.mp hodd
        have hsplit : 2 * (e / 2) + 1 = e := by omega
        have hstep : powModAux m a (fuel + 1) e =
            a % m * (powModAux m (a * a % m) fuel (e / 2)) % m := by
          simp [powModAux, hne, hmod]
        rw [hstep, hrec, hsq, hpow]
        conv_rhs => rw [← hsplit]
        rw [pow_succ]
        conv_rhs => rw [Nat.mul_mod]
        rw [Nat.mul_comm (a ^ (2 * (e / 2)) % m) (a % m)]

theorem powMod_correct (m a e : ℕ) : powMod m a e = a ^ e % m := by
  have he : e < 2 ^ (e + 1) := by
    have h1 := Nat.lt_two_pow e
    have h2 : (2 : ℕ) ^ e ≤ 2 ^ (e + 1) := Nat.pow_le_pow_right (by norm_num) (by omega)
    omega
  exact powModAux_correct m (e + 1) a e he

/-! ### Big-endian byte sequences

Buffers crossing the native boundary are byte lists.  `bytesToNat` is the
big-endian value of a buffer (`BN_bin2bn`); `natToBytes w n` is the
fixed-width big-endian encoding (`BN_bn2binpad`). -/

def bytesToNat (bs : List ℕ) : ℕ := bs.foldl (fun acc b => acc * 256 + b) 0

def natToBytes : ℕ → ℕ → List ℕ
  | 0, _ => []
  | w + 1, n => natToBytes w (n / 256) ++ [n % 256]

def ValidBytes (bs : List ℕ) : Prop := ∀ b ∈ bs, b < 256

instance (bs : List ℕ) : Decidable (ValidBytes bs) := by
  unfold ValidBytes; infer_instance

theorem natToBytes_length (w n : ℕ) : (natToBytes w n).length = w := by
  induction w generalizing n with
  | zero => rfl
  | succ w ih => simp [natToBytes, ih]

theorem natToBytes_valid (w n : ℕ) : ValidBytes (natToBytes w n) := by
  induction w generalizing n with
  | zero => intro b hb; simp [natToBytes] at hb
  | succ w ih =>
    intro b hb
    simp only [natToBytes, List.mem_append, List.mem_singleton] at hb
    rcases hb with hb | hb
    · exact ih (n / 256) b hb
    · subst hb; exact Nat.mod_lt _ (by norm_num)

theorem bytesToNat_append (xs ys : List ℕ) :
    bytesToNat (xs ++ ys) = bytesToNat ys + bytesToNat xs * 256 ^ ys.length := by
  induction ys using List.reverseRecOn generalizing xs with
  | nil => simp [bytesToNat]
  | append_singleton ys y ih =>
    have hfold : ∀ zs : List ℕ, bytesToNat (zs ++ [y]) = bytesToNat zs * 256 + y := by
      intro zs; simp [bytesToNat, List.foldl_append]
    rw [← List.append_assoc, hfold, hfold, ih]
    simp [pow_succ]
    ring

theorem bytesToNat_natToBytes (w n : ℕ) (h : n < 256 ^ w) :
    bytesToNat (natToBytes w n) = n := by
  induction w generalizing n with
  | zero =>
    interval_cases n
    rfl
  | succ w ih =>
    have hdiv : n / 256 < 256 ^ w := by
      rw [Nat.div_lt_iff_lt_mul (by norm_num)]
      calc n < 256 ^ (w + 1) := h
        _ = 256 ^ w * 256 := by rw [pow_succ]
    simp only [natToBytes]
    rw [bytesToNat_append, ih (n / 256) hdiv]
    simp [bytesToNat]
    omega

theorem bytesToNat_lt (bs : List ℕ) (h : ValidBytes bs) :
    bytesToNat bs < 256 ^ bs.length := by
  induction bs using List.reverseRecOn with
  | nil => simp [bytesToNat]
  | append_singleton xs x ih =>
    have hx : x < 256 := h x (by simp)
    have hxs : bytesToNat xs < 256 ^ xs.length :=
      ih (fun b hb => h b (by simp [hb]))
    have hfold : bytesToNat (xs ++ [x]) = bytesToNat xs * 256 + x := by
      simp [bytesToNat, List.foldl_append]
    rw [hfold]
    simp only [List.length_append, List.length_singleton]
    calc bytesToNat xs * 256 + x < bytesToNat xs * 256 + 256 := by omega
      _ = (bytesToNat xs + 1) * 256 := by ring
      _ ≤ 256 ^ xs.length * 256 := by
          have : bytesToNat xs + 1 ≤ 256 ^ xs.length := hxs
          exact Nat.mul_le_mul_right 256 this
      _ = 256 ^ (xs.length + 1) := by rw [pow_succ]

theorem natToBytes_bytesToNat (bs : List ℕ) (h : ValidBytes bs) :
    natToBytes bs.length (bytesToNat bs) = bs := by
  induction bs using List.reverseRecOn with
  | nil => rfl
  | append_singleton xs x ih =>
    have hx : x < 256 := h x (by simp)
    have hxs : ValidBytes xs := fun b hb => h b (by simp [hb])
    have hfold : bytesToNat (xs ++ [x]) = bytesToNat xs * 256 + x := by
      simp [bytesToNat, List.foldl_append]
    simp only [List.length_append, List.length_singleton, hfold, natToBytes]
    have hdiv : (bytesToNat xs * 256 + x) / 256 = bytesToNat xs := by
      omega
    have hmod : (bytesToNat xs * 256 + x) % 256 = x := by
      omega
    rw [hdiv, hmod, ih hxs]

/-! ### Lucas primality certificates

`prime_of_powMod_cert` packages `lucas_primality` so that a prime can be
certified from an explicit list of the prime factors of `P - 1` by pure
`powMod` computations. -/

theorem zmod_pow_natCast (P a e : ℕ) :
    ((a : ZMod P)) ^ e = ((powMod P a e : ℕ) : ZMod P) := by
  rw [powMod_correct, ZMod.natCast_mod, Nat.cast_pow]

theorem prime_of_powMod_cert (P a : ℕ) (qs : List ℕ)
    (hP : 2 ≤ P)
    (hprod : qs.prod = P - 1)
    (hqs : ∀ q ∈ qs, Nat.Prime q)
    (hpow : powMod P a (P - 1) = 1)
    (hdiv : ∀ q ∈ qs, powMod P a ((P - 1) / q) ≠ 1) : Nat.Prime P := by
  have hP1 : 1 < P := hP
  have : NeZero P := ⟨by omega⟩
  have : Fact (1 < P) := ⟨hP1⟩
  apply lucas_primality P (a : ZMod P)
  · rw [zmod_pow_natCast, hpow, Nat.cast_one]
  · intro q hq hqdvd
    have hmem : q ∈ qs := by
      apply mem_list_primes_of_dvd_prod hq.prime
      · intro r hr; exact (hqs r hr).prime
      · rw [hprod]; exact hqdvd
    rw [zmod_pow_natCast]
    intro hcast
    apply hdiv q hmem
    have hlt : powMod P a ((P - 1) / q) < P := by
      rw [powMod_correct]
      exact Nat.mod_lt _ (by omega)
    have hval := congrArg ZMod.val hcast
    rw [ZMod.val_cast_of_lt hlt, ZMod.val_one P] at hval
    exact hval

/-! ### Curve parameters (secp256k1, spec section 2 / SEC 2)

`secp_p` is the field prime, `secp_n` the group order, `(secp_gx, secp_gy)`
the generator. -/

def secp_p : ℕ := 2 ^ 256 - 2 ^ 32 - 977

def secp_n : ℕ :=
  115792089237316195423570985008687907852837564279074904382605163141518161494337

def secp_gx : ℕ :=
  55066263022277343669578718895168534326250603453777594175500187360389116729240

def secp_gy : ℕ :=
  32670510020758816978083085130507043184471273380659243275938904335757337482424

/-- Pratt / Lucas certificate chain for the primality of `secp_p`. -/
theorem chain_m1_prime : Nat.Prime 1206781 := by
  apply prime_of_powMod_cert 1206781 10 [2, 2, 3, 5, 20113]
  · norm_num
  · decide
  · intro q hq
    fin_cases hq <;> norm_num
  · decide
  · intro q hq
    fin_cases hq <;> decide

theorem chain_m2_prime : Nat.Prime 7240687 := by
  apply prime_of_powMod_cert 7240687 3 [2, 3, 1206781]
  · norm_num
  · decide
  · intro q hq
    fin_cases hq
    · norm_num
    · norm_num
    · exact chain_m1_prime
  · decide
  · intro q hq
    fin_cases hq <;> decide

theorem chain_m3_prime : Nat.Prime 13331831 := by
  apply prime_of_powMod_cert 13331831 13 [2, 5, 971, 1373]
  · norm_num
  · decide
  · intro q hq
    fin_cases hq <;> norm_num
  · decide
  · intro q hq
    fin_cases hq <;> decide

theorem chain_m4_prime : Nat.Prime 107590001 := by
  apply prime_of_powMod_cert 107590001 3 [2, 2, 2, 2, 5, 5, 5, 5, 7, 29, 53]
  · norm_num
  · decide
  · intro q hq
    fin_cases hq <;> norm_num
  · decide
  · intro q hq
    fin_cases hq <;> decide

theorem chain_t1_prime : Nat.Prime 173378833005251801 := by
  apply prime_of_powMod_cert 173378833005251801 6 [2, 2, 2, 5, 5, 2621, 24809, 13331831]
  · norm_num
  · decide
  · intro q hq
    fin_cases hq
    · norm_num
    · norm_num
    · norm_num
    · norm_num
    · norm_num
    · norm_num
    · norm_num
    · exact chain_m3_prime
  · decide
  · intro q hq
    fin_cases hq <;> decide

theorem chain_s1_prime : Nat.Prime 22149492674086928081353 := by
  apply prime_of_powMod_cert 22149492674086928081353 5 [2, 2, 2, 3, 5323, 173378833005251801]
  · norm_num
  · decide
  · intro q hq
    fin_cases hq
    · norm_num
    · norm_num
    · norm_num
    · norm_num
    · norm_num
    · exact chain_t1_prime
  · decide
  · intro q hq
    fin_cases hq <;> decide

theorem chain_q1_prime : Nat.Prime 132896956044521568488119 := by
  apply prime_of_powMod_cert 132896956044521568488119 6 [2, 3, 22149492674086928081353]
  · norm_num
  · decide
  · intro q hq
    fin_cases hq
    · norm_num
    · norm_num
    · exact chain_s1_prime
  · decide
  · intro q hq
    fin_cases hq <;> decide

theorem chain_q2_prime : Nat.Prime 255515944373312847190720520512484175977 := by
  apply prime_of_powMod_cert 255515944373312847190720520512484175977 3
    [2, 2, 2, 7, 7, 11, 1627, 2657, 4423, 41201, 96557, 7240687, 107590001]
  · norm_num
  · decide
  · intro q hq
    fin_cases hq
    · norm_num
    · norm_num
    · norm_num
    · norm_num
    · norm_num
    · norm_num
    · norm_num
    · norm_num
    · norm_num
    · norm_num
    · norm_num
    · exact chain_m2_prime
    · exact chain_m4_prime
  · decide
  · intro q hq
    fin_cases hq <;> decide

theorem chain_r_prime :
    Nat.Prime 205115282021455665897114700593932402728804164701536103180137503955397371 := by
  apply prime_of_powMod_cert
    205115282021455665897114700593932402728804164701536103180137503955397371 10
    [2, 3, 5, 29, 29, 31, 7723, 132896956044521568488119,
      255515944373312847190720520512484175977]
  · norm_num
  · decide
  · intro q hq
    fin_cases hq
    · norm_num
    · norm_num
    · norm_num
    · norm_num
    · norm_num
    · norm_num
    · norm_num
    · exact chain_q1_prime
    · exact chain_q2_prime
  · decide
  · intro q hq
    fin_cases hq <;> decide

theorem secp_p_prime : Nat.Prime secp_p := by
  apply prime_of_powMod_cert secp_p 3
    [2, 3, 7, 13441, 205115282021455665897114700593932402728804164701536103180137503955397371]
  · decide
  · decide
  · intro q hq
    fin_cases hq
    · norm_num
    · norm_num
    · norm_num
    · norm_num
    · exact chain_r_prime
  · decide
  · intro q hq
    fin_cases hq <;> decide

instance : Fact (Nat.Prime secp_p) := ⟨secp_p_prime⟩

/-! ### The curve and its group of points

Modelled from the spec: the OpenSSL group `EC_GROUP` for `NID_secp256k1` is
the short Weierstrass curve `y ^ 2 = x ^ 3 + 7` over the prime field
`ZMod secp_p`; its points are Mathlib's nonsingular affine points. -/

abbrev Fp := ZMod secp_p

def secpCurve : WeierstrassCurve.Affine Fp :=
  { a₁ := 0, a₂ := 0, a₃ := 0, a₄ := 0, a₆ := 7 }

instance secpEquationDecidable (x y : Fp) : Decidable (secpCurve.Equation x y) :=
  decidable_of_iff _ (secpCurve.equation_iff x y).symm

theorem secp_delta_ne_zero : secpCurve.Δ ≠ 0 := by
  have h : secpCurve.Δ = -21168 := by
    simp only [WeierstrassCurve.Δ, WeierstrassCurve.b₂, WeierstrassCurve.b₄,
      WeierstrassCurve.b₆, WeierstrassCurve.b₈, secpCurve]
    ring
  rw [h]
  decide

theorem secp_g_equation : secpCurve.Equation (secp_gx : Fp) (secp_gy : Fp) := by
  rw [WeierstrassCurve.Affine.equation_iff]
  decide

theorem secp_g_nonsingular : secpCurve.Nonsingular (secp_gx : Fp) (secp_gy : Fp) :=
  secpCurve.nonsingular_of_Δ_ne_zero secp_g_equation secp_delta_ne_zero

/-- The secp256k1 base point as a nonsingular curve point. -/
def secpG : secpCurve.Point := WeierstrassCurve.Affine.Point.some secp_g_nonsingular

/-- Nonsingularity from the curve equation (the curve has nonzero discriminant). -/
theorem secp_nonsingular_of_equation {x y : Fp} (h : secpCurve.Equation x y) :
    secpCurve.Nonsingular x y :=
  secpCurve.nonsingular_of_Δ_ne_zero h secp_delta_ne_zero

/-- Computable slope, definitionally Mathlib's `slope` with decidable tests. -/
def slopeC (x₁ x₂ y₁ y₂ : Fp) : Fp :=
  if x₁ = x₂ then
    if y₁ = secpCurve.negY x₂ y₂ then 0
    else (3 * x₁ ^ 2 + 2 * secpCurve.a₂ * x₁ + secpCurve.a₄ - secpCurve.a₁ * y₁) /
      (y₁ - secpCurve.negY x₁ y₁)
  else (y₁ - y₂) / (x₁ - x₂)

theorem slopeC_eq (x₁ x₂ y₁ y₂ : Fp) : slopeC x₁ x₂ y₁ y₂ = secpCurve.slope x₁ x₂ y₁ y₂ := by
  by_cases hx : x₁ = x₂
  · by_cases hy : y₁ = secpCurve.negY x₂ y₂
    · rw [slopeC, if_pos hx, if_pos hy, WeierstrassCurve.Affine.slope_of_Y_eq hx hy]
    · rw [slopeC, if_pos hx, if_neg hy, WeierstrassCurve.Affine.slope_of_Y_ne hx hy]
  · rw [slopeC, if_neg hx, WeierstrassCurve.Affine.slope_of_X_ne hx]

theorem point_some_congr {x₁ y₁ x₂ y₂ : Fp} (hx : x₁ = x₂) (hy : y₁ = y₂)
    (h₁ : secpCurve.Nonsingular x₁ y₁) (h₂ : secpCurve.Nonsingular x₂ y₂) :
    WeierstrassCurve.Affine.Point.some h₁ = WeierstrassCurve.Affine.Point.some h₂ := by
  subst hx; subst hy; rfl

/-- Computable point addition, agreeing with Mathlib's group law (`pAdd_eq`). -/
def pAdd : secpCurve.Point → secpCurve.Point → secpCurve.Point
  | .zero, P => P
  | P, .zero => P
  | @WeierstrassCurve.Affine.Point.some _ _ _ x₁ y₁ h₁,
      @WeierstrassCurve.Affine.Point.some _ _ _ x₂ y₂ h₂ =>
    if h : x₁ = x₂ ∧ y₁ = secpCurve.negY x₂ y₂ then .zero
    else .some ((slopeC_eq x₁ x₂ y₁ y₂).symm ▸
      WeierstrassCurve.Affine.nonsingular_add h₁ h₂ fun hx hy => h ⟨hx, hy⟩)

theorem pAdd_eq (P Q : secpCurve.Point) : pAdd P Q = P + Q := by
  cases P with
  | zero =>
    cases Q with
    | zero => rfl
    | some h₂ => rfl
  | @some x₁ y₁ h₁ =>
    cases Q with
    | zero => rfl
    | @some x₂ y₂ h₂ =>
      by_cases hcond : x₁ = x₂ ∧ y₁ = secpCurve.negY x₂ y₂
      · rw [pAdd, dif_pos hcond,
          WeierstrassCurve.Affine.Point.add_of_Y_eq hcond.1 hcond.2]
        exact WeierstrassCurve.Affine.Point.zero_def
      · rw [pAdd, dif_neg hcond]
        push_neg at hcond
        rw [WeierstrassCurve.Affine.Point.add_of_imp hcond]
        exact point_some_congr (by rw [slopeC_eq]) (by rw [slopeC_eq]) _ _

/-- Computable scalar multiplication, agreeing with `k • P` (`pSmul_eq`). -/
def pSmul : ℕ → secpCurve.Point → secpCurve.Point
  | 0, _ => .zero
  | k + 1, P => pAdd P (pSmul k P)

theorem pSmul_eq (k : ℕ) (P : secpCurve.Point) : pSmul k P = k • P := by
  induction k with
  | zero =>
    rw [pSmul, zero_nsmul]
    exact WeierstrassCurve.Affine.Point.zero_def
  | succ k ih => rw [pSmul, pAdd_eq, ih, succ_nsmul, add_comm]

/-- Scalar multiple of the generator (`EC_POINT_mul(group, ·, k, nullptr, nullptr)`,
modelled from the spec). -/
def mulGen (k : ℕ) : secpCurve.Point := pSmul k secpG

/-! ### Point codec

Modelled from the spec (section 4.2): `encodePoint` is
`EC_POINT_point2oct` (OpenSSL encodes the point at infinity as the single
byte `0x00`), `decodePoint` is `EC_POINT_oct2point` restricted to the two
forms the spec admits; compressed decode recovers `y` by the
`(p + 1) / 4` square root (`secp_p % 4 = 3`) and checks parity. -/

def encodePoint (compressed : Bool) : secpCurve.Point → List ℕ
  | .zero => [0]
  | @WeierstrassCurve.Affine.Point.some _ _ _ x y _ =>
    if compressed then (2 + y.val % 2) :: natToBytes 32 x.val
    else 4 :: (natToBytes 32 x.val ++ natToBytes 32 y.val)

def sqrtFp (c : Fp) : Fp := ((powMod secp_p c.val ((secp_p + 1) / 4) : ℕ) : Fp)

/-- The parity-selected candidate root for a compressed prefix byte. -/
def candidateY (pb xn : ℕ) : Fp :=
  if (sqrtFp ((xn : Fp) ^ 3 + 7)).val % 2 = pb % 2 then
    sqrtFp ((xn : Fp) ^ 3 + 7)
  else -(sqrtFp ((xn : Fp) ^ 3 + 7))

/-- Decode of a compressed point from its prefix byte and x value: the
candidate root must have the encoded parity and satisfy the curve
equation. -/
def decodeCompressed (pb xn : ℕ) : Option secpCurve.Point :=
  if xn < secp_p then
    if (candidateY pb xn).val % 2 = pb % 2 then
      if h : secpCurve.Equation (xn : Fp) (candidateY pb xn) then
        some (.some (secp_nonsingular_of_equation h))
      else none
    else none
  else none

def decodePoint (bs : List ℕ) : Option secpCurve.Point :=
  if bs.length = 65 then
    if bs.head? = some 4 then
      if bytesToNat ((bs.drop 1).take 32) < secp_p ∧
          bytesToNat (bs.drop 33) < secp_p then
        if h : secpCurve.Equation ((bytesToNat ((bs.drop 1).take 32) : ℕ) : Fp)
            ((bytesToNat (bs.drop 33) : ℕ) : Fp) then
          some (.some (secp_nonsingular_of_equation h))
        else none
      else none
    else none
  else if bs.length = 33 then
    match bs.head? with
    | some pb =>
      if pb = 2 ∨ pb = 3 then decodeCompressed pb (bytesToNat (bs.drop 1))
      else none
    | none => none
  else none

/-! ### Session state and operations

`EcdhState` embeds the `HybridEcdh` object: `pkey` is the nullable
`EVP_PKEY` holding the private scalar and its public point.  Operations
return, where the C++ can throw, the pair of the state at throw time and
the thrown error. -/

inductive EcdhError
  | invalidPrivateKeySize
  | privateKeyOutOfRange
  | noKeyPair
  | invalidPublicKey
  | internalError
  deriving DecidableEq

structure KeyPair where
  priv : ℕ
  pub : secpCurve.Point

structure EcdhState where
  pkey : Option KeyPair

def initialState : EcdhState := ⟨none⟩

/-- `HybridEcdh::setPrivateKeyRaw`: the size check precedes freeing the old
key pair; the range check `BN_is_zero || BN_cmp(priv, order) >= 0` runs
after the old pair has already been freed. -/
def setPrivateKeyRaw (st : EcdhState) (privateKey : List ℕ) :
    EcdhState × Option EcdhError :=
  if privateKey.length ≠ 32 then (st, some .invalidPrivateKeySize)
  else if bytesToNat privateKey = 0 ∨ secp_n ≤ bytesToNat privateKey then
    (⟨none⟩, some .privateKeyOutOfRange)
  else
    (⟨some ⟨bytesToNat privateKey, mulGen (bytesToNat privateKey)⟩⟩, none)

/-- `HybridEcdh::generateKeys`; the scalar drawn by `EC_KEY_generate_key`
is passed explicitly (modelled from the spec: generation retries until the
scalar lies in `[1, n-1]`, and the public point is its generator
multiple). -/
def generateKeys (_st : EcdhState) (s : ℕ) : EcdhState :=
  ⟨some ⟨s, mulGen s⟩⟩

/-- `HybridEcdh::getPublicKeyRaw`: `format == 0` selects the compressed
form, anything else the uncompressed form. -/
def getPublicKeyRaw (st : EcdhState) (format : ℤ) : Except EcdhError (List ℕ) :=
  match st.pkey with
  | none => .error .noKeyPair
  | some kp => .ok (encodePoint (decide (format = 0)) kp.pub)

/-- `HybridEcdh::getPrivateKeyRaw`: fixed 32-byte `BN_bn2binpad` export
(which fails when the value does not fit). -/
def getPrivateKeyRaw (st : EcdhState) : Except EcdhError (List ℕ) :=
  match st.pkey with
  | none => .error .noKeyPair
  | some kp =>
    if kp.priv < 256 ^ 32 then .ok (natToBytes 32 kp.priv)
    else .error .internalError

/-- `HybridEcdh::computeSecretRaw`: null check, length check, decode, then
`EVP_PKEY_derive` (modelled from the spec: the 32-byte big-endian
x-coordinate of `priv • P`; OpenSSL fails if the product is infinity). -/
def computeSecretRaw (st : EcdhState) (otherPublicKey : List ℕ) :
    Except EcdhError (List ℕ) :=
  match st.pkey with
  | none => .error .noKeyPair
  | some kp =>
    if otherPublicKey.length ≠ 33 ∧ otherPublicKey.length ≠ 65 then
      .error .invalidPublicKey
    else
      match decodePoint otherPublicKey with
      | none => .error .invalidPublicKey
      | some P =>
        match pSmul kp.priv P with
        | .zero => .error .internalError
        | @WeierstrassCurve.Affine.Point.some _ _ _ x _ _ => .ok (natToBytes 32 x.val)

/-- The TypeScript format mapping of `ECDH.getPublicKey`
(`ecdh.ts`: `format === 'compressed' ? 0 : 1`). -/
def tsFormatFlag (format : Option String) : ℤ :=
  if format = some "compressed" then 0 else 1

def tsGetPublicKey (st : EcdhState) (format : Option String) :
    Except EcdhError (List ℕ) :=
  getPublicKeyRaw st (tsFormatFlag format)

/-- TypeScript `ECDH.generateKeys`: native `generateKeys()` followed by
`getPublicKey` with the same optional format. -/
def tsGenerateKeys (st : EcdhState) (s : ℕ) (format : Option String) :
    EcdhState × Except EcdhError (List ℕ) :=
  let st2 := generateKeys st s
  (st2, tsGetPublicKey st2 format)

/-- States reachable through the session facade operations. -/
inductive Reachable : EcdhState → Prop
  | init : Reachable initialState
  | gen (st : EcdhState) (s : ℕ) (h : Reachable st) (h1 : 1 ≤ s) (h2 : s < secp_n) :
      Reachable (generateKeys st s)
  | setPriv (st : EcdhState) (key : List ℕ) (h : Reachable st) :
      Reachable (setPrivateKeyRaw st key).1

/-! ### Helper lemmas -/

instance : NeZero secp_p := ⟨by have := secp_p_prime.pos; omega⟩

theorem secp_p_lt_256pow : secp_p < 256 ^ 32 := by decide

theorem secp_n_lt_256pow : secp_n < 256 ^ 32 := by decide

theorem val_lt_256pow (x : Fp) : x.val < 256 ^ 32 :=
  lt_trans (ZMod.val_lt x) secp_p_lt_256pow

theorem natCast_val_self (x : Fp) : ((x.val : ℕ) : Fp) = x :=
  ZMod.natCast_rightInverse x

theorem decodePoint_uncompressed (xb yb : List ℕ) (hx : xb.length = 32)
    (hy : yb.length = 32)
    (hxv : bytesToNat xb < secp_p) (hyv : bytesToNat yb < secp_p)
    (heq : secpCurve.Equation ((bytesToNat xb : ℕ) : Fp) ((bytesToNat yb : ℕ) : Fp)) :
    decodePoint (4 :: (xb ++ yb)) =
      some (.some (secp_nonsingular_of_equation heq)) := by
  have hlen : (4 :: (xb ++ yb)).length = 65 := by
    simp [hx, hy]
  have hslice1 : ((4 :: (xb ++ yb)).drop 1).take 32 = xb := by
    show (xb ++ yb).take 32 = xb
    rw [← hx, List.take_left]
  have hslice2 : (4 :: (xb ++ yb)).drop 33 = yb := by
    show (xb ++ yb).drop 32 = yb
    rw [← hx, List.drop_left]
  rw [decodePoint, if_pos hlen]
  have hhead : (4 :: (xb ++ yb)).head? = some 4 := rfl
  rw [if_pos hhead]
  simp only [hslice1, hslice2]
  rw [if_pos ⟨hxv, hyv⟩, dif_pos heq]

theorem decodePoint_encodePoint {x y : Fp} (h : secpCurve.Nonsingular x y) :
    decodePoint (encodePoint false (.some h)) =
      some (WeierstrassCurve.Affine.Point.some h) := by
  have hx32 : (natToBytes 32 x.val).length = 32 := natToBytes_length 32 _
  have hy32 : (natToBytes 32 y.val).length = 32 := natToBytes_length 32 _
  have hrx : bytesToNat (natToBytes 32 x.val) = x.val :=
    bytesToNat_natToBytes 32 _ (val_lt_256pow x)
  have hry : bytesToNat (natToBytes 32 y.val) = y.val :=
    bytesToNat_natToBytes 32 _ (val_lt_256pow y)
  have hcx : ((bytesToNat (natToBytes 32 x.val) : ℕ) : Fp) = x := by
    rw [hrx, natCast_val_self]
  have hcy : ((bytesToNat (natToBytes 32 y.val) : ℕ) : Fp) = y := by
    rw [hry, natCast_val_self]
  have heq : secpCurve.Equation ((bytesToNat (natToBytes 32 x.val) : ℕ) : Fp)
      ((bytesToNat (natToBytes 32 y.val) : ℕ) : Fp) := by
    rw [hcx, hcy]
    exact ((secpCurve.nonsingular_iff x y).mp h).1
  have henc : encodePoint false (.some h) =
      4 :: (natToBytes 32 x.val ++ natToBytes 32 y.val) := rfl
  refine (congrArg decodePoint henc).trans ?_
  have hxv : bytesToNat (natToBytes 32 x.val) < secp_p := by
    rw [hrx]; exact ZMod.val_lt x
  have hyv : bytesToNat (natToBytes 32 y.val) < secp_p := by
    rw [hry]; exact ZMod.val_lt y
  refine (decodePoint_uncompressed _ _ hx32 hy32 hxv hyv heq).trans ?_
  exact congrArg some (point_some_congr hcx hcy _ _)

theorem decodePoint_some_length (bs : List ℕ) (P : secpCurve.Point)
    (h : decodePoint bs = some P) : bs.length = 33 ∨ bs.length = 65 := by
  by_cases h65 : bs.length = 65
  · right; exact h65
  by_cases h33 : bs.length = 33
  · left; exact h33
  exfalso
  rw [decodePoint, if_neg h65, if_neg h33] at h
  exact Option.noConfusion h

theorem setPrivateKeyRaw_of_length_ne (st : EcdhState) (key : List ℕ)
    (h : key.length ≠ 32) :
    setPrivateKeyRaw st key = (st, some .invalidPrivateKeySize) := by
  rw [setPrivateKeyRaw, if_pos h]

theorem setPrivateKeyRaw_of_out_of_range (st : EcdhState) (key : List ℕ)
    (h32 : key.length = 32) (hr : bytesToNat key = 0 ∨ secp_n ≤ bytesToNat key) :
    setPrivateKeyRaw st key = (⟨none⟩, some .privateKeyOutOfRange) := by
  rw [setPrivateKeyRaw, if_neg (fun hne => hne h32), if_pos hr]

theorem setPrivateKeyRaw_of_valid (st : EcdhState) (key : List ℕ)
    (h32 : key.length = 32) (h1 : 1 ≤ bytesToNat key) (hn : bytesToNat key < secp_n) :
    setPrivateKeyRaw st key =
      (⟨some ⟨bytesToNat key, mulGen (bytesToNat key)⟩⟩, none) := by
  rw [setPrivateKeyRaw, if_neg (fun hne => hne h32), if_neg (by omega)]

/-! ### Claim theorems -/

/-- C4: private key import accepts exactly the 32-byte big-endian strings
whose value `s` satisfies `1 ≤ s < n`; wrong lengths fail with a size
error, the zero string and any value `≥ n` fail with the out-of-range
error. -/
theorem claim_C4_import_validation (st : EcdhState) :
    (∀ key : List ℕ, key.length ≠ 32 →
      setPrivateKeyRaw st key = (st, some .invalidPrivateKeySize)) ∧
    (∀ key : List ℕ, key.length = 32 →
      bytesToNat key = 0 ∨ secp_n ≤ bytesToNat key →
      (setPrivateKeyRaw st key).2 = some .privateKeyOutOfRange) ∧
    (setPrivateKeyRaw st (List.replicate 32 0)).2 = some .privateKeyOutOfRange ∧
    (∀ key : List ℕ, key.length = 32 → 1 ≤ bytesToNat key →
      bytesToNat key < secp_n →
      setPrivateKeyRaw st key =
        (⟨some ⟨bytesToNat key, mulGen (bytesToNat key)⟩⟩, none)) ∧
    (∀ key : List ℕ, (setPrivateKeyRaw st key).2 = none →
      key.length = 32 ∧ 1 ≤ bytesToNat key ∧ bytesToNat key < secp_n) := by
  refine ⟨fun key h => setPrivateKeyRaw_of_length_ne st key h,
    fun key h32 hr => by rw [setPrivateKeyRaw_of_out_of_range st key h32 hr],
    ?_, fun key h32 h1 hn => setPrivateKeyRaw_of_valid st key h32 h1 hn, ?_⟩
  · rw [setPrivateKeyRaw_of_out_of_range st (List.replicate 32 0) (by decide)
      (Or.inl (by decide))]
  · intro key hok
    by_cases h32 : key.length = 32
    · by_cases hr : bytesToNat key = 0 ∨ secp_n ≤ bytesToNat key
      · rw [setPrivateKeyRaw_of_out_of_range st key h32 hr] at hok
        exact Option.noConfusion hok
      · push_neg at hr
        exact ⟨h32, by omega, hr.2⟩
    · rw [setPrivateKeyRaw_of_length_ne st key h32] at hok
      exact Option.noConfusion hok

theorem claim_C4_witness :
    setPrivateKeyRaw initialState (List.replicate 31 0) =
      (initialState, some .invalidPrivateKeySize) ∧
    (setPrivateKeyRaw initialState (List.replicate 32 0)).2 =
      some .privateKeyOutOfRange ∧
    (setPrivateKeyRaw initialState (natToBytes 32 secp_n)).2 =
      some .privateKeyOutOfRange ∧
    setPrivateKeyRaw initialState (natToBytes 32 1) =
      (⟨some ⟨bytesToNat (natToBytes 32 1), mulGen (bytesToNat (natToBytes 32 1))⟩⟩,
        none) :=
  ⟨(claim_C4_import_validation initialState).1 (List.replicate 31 0) (by decide),
    (claim_C4_import_validation initialState).2.2.1,
    (claim_C4_import_validation initialState).2.1 (natToBytes 32 secp_n)
      (natToBytes_length 32 secp_n) (Or.inr (by decide)),
    (claim_C4_import_validation initialState).2.2.2.1 (natToBytes 32 1)
      (natToBytes_length 32 1) (by decide) (by decide)⟩

/-- C6: importing a valid 32-byte big-endian scalar and exporting it
returns exactly the same 32 bytes, leading zeros included. -/
theorem claim_C6_private_roundtrip (st : EcdhState) (bs : List ℕ)
    (hlen : bs.length = 32) (hvb : ValidBytes bs)
    (h1 : 1 ≤ bytesToNat bs) (hn : bytesToNat bs < secp_n) :
    getPrivateKeyRaw (setPrivateKeyRaw st bs).1 = .ok bs := by
  rw [setPrivateKeyRaw_of_valid st bs hlen h1 hn]
  have hlt : bytesToNat bs < 256 ^ 32 := by
    have := bytesToNat_lt bs hvb
    rw [hlen] at this
    exact this
  rw [getPrivateKeyRaw]
  simp only [if_pos hlt]
  have := natToBytes_bytesToNat bs hvb
  rw [hlen] at this
  rw [this]

theorem claim_C6_witness :
    (natToBytes 32 1).length = 32 ∧
    getPrivateKeyRaw (setPrivateKeyRaw initialState (natToBytes 32 1)).1 =
      .ok (natToBytes 32 1) :=
  ⟨natToBytes_length 32 1,
    claim_C6_private_roundtrip initialState (natToBytes 32 1)
      (natToBytes_length 32 1) (natToBytes_valid 32 1) (by decide) (by decide)⟩

/-- C8: in the empty state every key-pair-requiring operation fails with
the no-key-pair error, and those operations return values only in the
keyed state. -/
theorem claim_C8_empty_state_rejection :
    (∀ st : EcdhState, st.pkey = none →
      (∀ format : ℤ, getPublicKeyRaw st format = .error .noKeyPair) ∧
      getPrivateKeyRaw st = .error .noKeyPair ∧
      (∀ bs : List ℕ, computeSecretRaw st bs = .error .noKeyPair)) ∧
    (∀ (st : EcdhState) (format : ℤ) (v : List ℕ),
      getPublicKeyRaw st format = .ok v → st.pkey.isSome = true) ∧
    (∀ (st : EcdhState) (v : List ℕ),
      getPrivateKeyRaw st = .ok v → st.pkey.isSome = true) ∧
    (∀ (st : EcdhState) (bs v : List ℕ),
      computeSecretRaw st bs = .ok v → st.pkey.isSome = true) := by
  refine ⟨?_, ?_, ?_, ?_⟩
  · rintro ⟨pk⟩ hnone
    simp only at hnone
    subst hnone
    exact ⟨fun format => rfl, rfl, fun bs => rfl⟩
  · rintro ⟨pk⟩ format v hok
    cases pk with
    | none => exact Except.noConfusion hok
    | some kp => rfl
  · rintro ⟨pk⟩ v hok
    cases pk with
    | none => exact Except.noConfusion hok
    | some kp => rfl
  · rintro ⟨pk⟩ bs v hok
    cases pk with
    | none => exact Except.noConfusion hok
    | some kp => rfl

theorem claim_C8_witness :
    initialState.pkey = none ∧
    getPublicKeyRaw initialState 1 = .error .noKeyPair ∧
    getPrivateKeyRaw initialState = .error .noKeyPair ∧
    computeSecretRaw initialState (List.replicate 65 0) = .error .noKeyPair :=
  ⟨rfl, (claim_C8_empty_state_rejection.1 initialState rfl).1 1,
    (claim_C8_empty_state_rejection.1 initialState rfl).2.1,
    (claim_C8_empty_state_rejection.1 initialState rfl).2.2 (List.replicate 65 0)⟩

/-- C9 counterexample: a keyed session (private key 1 imported) becomes
empty again when a 32-byte out-of-range private key (all zeros) is
rejected, because the old key pair is freed before range validation. -/
theorem claim_C9_counterexample :
    ((setPrivateKeyRaw initialState (natToBytes 32 1)).1).pkey.isSome = true ∧
    (setPrivateKeyRaw (setPrivateKeyRaw initialState (natToBytes 32 1)).1
      (List.replicate 32 0)).2 = some .privateKeyOutOfRange ∧
    ((setPrivateKeyRaw (setPrivateKeyRaw initialState (natToBytes 32 1)).1
      (List.replicate 32 0)).1).pkey = none := by
  refine ⟨?_, ?_, ?_⟩
  · rw [setPrivateKeyRaw_of_valid initialState (natToBytes 32 1)
      (natToBytes_length 32 1) (by decide) (by decide)]
    rfl
  · rw [setPrivateKeyRaw_of_out_of_range _ (List.replicate 32 0) (by decide)
      (Or.inl (by decide))]
  · rw [setPrivateKeyRaw_of_out_of_range _ (List.replicate 32 0) (by decide)
      (Or.inl (by decide))]

/-- C9 amended: `generate` and a valid import always leave the session
keyed, and a wrong-length import leaves the state untouched (so keyed
stays keyed); but a 32-byte out-of-range import empties a previously
keyed session, since the old key pair is discarded before range
validation. -/
theorem claim_C9_amended_transitions (st : EcdhState) :
    (∀ s : ℕ, (generateKeys st s).pkey.isSome = true) ∧
    (∀ key : List ℕ, key.length ≠ 32 → (setPrivateKeyRaw st key).1 = st) ∧
    (∀ key : List ℕ, key.length = 32 → 1 ≤ bytesToNat key →
      bytesToNat key < secp_n →
      ((setPrivateKeyRaw st key).1).pkey.isSome = true) ∧
    (∀ key : List ℕ, key.length = 32 →
      bytesToNat key = 0 ∨ secp_n ≤ bytesToNat key →
      ((setPrivateKeyRaw st key).1).pkey = none) := by
  refine ⟨fun s => rfl, ?_, ?_, ?_⟩
  · intro key h
    rw [setPrivateKeyRaw_of_length_ne st key h]
  · intro key h32 h1 hn
    rw [setPrivateKeyRaw_of_valid st key h32 h1 hn]
    rfl
  · intro key h32 hr
    rw [setPrivateKeyRaw_of_out_of_range st key h32 hr]

theorem claim_C9_amended_witness :
    (generateKeys initialState 1).pkey.isSome = true ∧
    (setPrivateKeyRaw initialState (List.replicate 31 0)).1 = initialState ∧
    ((setPrivateKeyRaw initialState (natToBytes 32 1)).1).pkey.isSome = true ∧
    ((setPrivateKeyRaw initialState (List.replicate 32 0)).1).pkey = none :=
  ⟨(claim_C9_amended_transitions initialState).1 1,
    (claim_C9_amended_transitions initialState).2.1 (List.replicate 31 0) (by decide),
    (claim_C9_amended_transitions initialState).2.2.1 (natToBytes 32 1)
      (natToBytes_length 32 1) (by decide) (by decide),
    (claim_C9_amended_transitions initialState).2.2.2 (List.replicate 32 0)
      (by decide) (Or.inl (by decide))⟩

/-- C10: in the TypeScript layer every format other than the string
"compressed" (including absence) maps to flag 1; in the native layer
every integer format other than 0 selects the uncompressed encoding and
no format value is rejected. -/
theorem claim_C10_format_fallback (st : EcdhState) (kp : KeyPair)
    (hst : st.pkey = some kp) :
    tsFormatFlag none = 1 ∧
    (∀ s : String, s ≠ "compressed" → tsFormatFlag (some s) = 1) ∧
    tsFormatFlag (some "compressed") = 0 ∧
    (∀ format : ℤ, format ≠ 0 →
      getPublicKeyRaw st format = .ok (encodePoint false kp.pub)) ∧
    getPublicKeyRaw st 0 = .ok (encodePoint true kp.pub) ∧
    (∀ format : ℤ, ∃ v, getPublicKeyRaw st format = .ok v) ∧
    (∀ (x y : Fp) (hxy : secpCurve.Nonsingular x y), kp.pub = .some hxy →
      (encodePoint false kp.pub).length = 65) := by
  obtain ⟨pk⟩ := st
  simp only at hst
  subst hst
  refine ⟨rfl, ?_, rfl, ?_, ?_, ?_, ?_⟩
  · intro s hs
    rw [tsFormatFlag, if_neg (by simpa using hs)]
  · intro format h
    rw [getPublicKeyRaw]
    rw [decide_eq_false h]
  · rw [getPublicKeyRaw]
    norm_num
  · intro format
    exact ⟨encodePoint (decide (format = 0)) kp.pub, rfl⟩
  · intro x y hxy hpub
    rw [hpub, encodePoint]
    simp [natToBytes_length]

theorem claim_C10_witness :
    tsFormatFlag none = 1 ∧
    tsFormatFlag (some "uncompressed") = 1 ∧
    getPublicKeyRaw ⟨some ⟨1, secpG⟩⟩ 7 = .ok (encodePoint false secpG) ∧
    getPublicKeyRaw ⟨some ⟨1, secpG⟩⟩ 0 = .ok (encodePoint true secpG) ∧
    (encodePoint false secpG).length = 65 :=
  ⟨(claim_C10_format_fallback ⟨some ⟨1, secpG⟩⟩ ⟨1, secpG⟩ rfl).1,
    (claim_C10_format_fallback ⟨some ⟨1, secpG⟩⟩ ⟨1, secpG⟩ rfl).2.1
      "uncompressed" (by decide),
    (claim_C10_format_fallback ⟨some ⟨1, secpG⟩⟩ ⟨1, secpG⟩ rfl).2.2.2.1 7
      (by decide),
    (claim_C10_format_fallback ⟨some ⟨1, secpG⟩⟩ ⟨1, secpG⟩ rfl).2.2.2.2.1,
    (claim_C10_format_fallback ⟨some ⟨1, secpG⟩⟩ ⟨1, secpG⟩ rfl).2.2.2.2.2.2
      (secp_gx : Fp) (secp_gy : Fp) secp_g_nonsingular rfl⟩

/-- C5: in every reachable state holding a key pair, the stored public
point is the generator multiple of the stored scalar; in particular the
public key exported after a valid import is the generator multiple of the
imported scalar (a caller can never pair its own public point with a
private key). -/
theorem claim_C5_key_pair_coherence :
    (∀ st : EcdhState, Reachable st → ∀ kp : KeyPair, st.pkey = some kp →
      kp.pub = mulGen kp.priv) ∧
    (∀ (st : EcdhState) (key : List ℕ), key.length = 32 →
      1 ≤ bytesToNat key → bytesToNat key < secp_n →
      getPublicKeyRaw (setPrivateKeyRaw st key).1 1 =
        .ok (encodePoint false (mulGen (bytesToNat key)))) := by
  constructor
  · intro st h
    induction h with
    | init =>
      intro kp hkp
      exact Option.noConfusion hkp
    | gen st s h h1 h2 ih =>
      intro kp hkp
      simp only [generateKeys] at hkp
      injection hkp with hkp
      subst hkp
      rfl
    | setPriv st key h ih =>
      intro kp hkp
      by_cases h32 : key.length = 32
      · by_cases hr : bytesToNat key = 0 ∨ secp_n ≤ bytesToNat key
        · rw [setPrivateKeyRaw_of_out_of_range st key h32 hr] at hkp
          exact Option.noConfusion hkp
        · push_neg at hr
          rw [setPrivateKeyRaw_of_valid st key h32 (by omega) hr.2] at hkp
          simp only at hkp
          injection hkp with hkp
          subst hkp
          rfl
      · rw [setPrivateKeyRaw_of_length_ne st key h32] at hkp
        exact ih kp hkp
  · intro st key h32 h1 hn
    rw [setPrivateKeyRaw_of_valid st key h32 h1 hn]
    rfl

theorem claim_C5_witness :
    Reachable (setPrivateKeyRaw initialState (natToBytes 32 1)).1 ∧
    ((setPrivateKeyRaw initialState (natToBytes 32 1)).1).pkey =
      some ⟨bytesToNat (natToBytes 32 1), mulGen (bytesToNat (natToBytes 32 1))⟩ ∧
    (⟨bytesToNat (natToBytes 32 1), mulGen (bytesToNat (natToBytes 32 1))⟩ :
      KeyPair).pub = mulGen (bytesToNat (natToBytes 32 1)) ∧
    getPublicKeyRaw (setPrivateKeyRaw initialState (natToBytes 32 1)).1 1 =
      .ok (encodePoint false (mulGen (bytesToNat (natToBytes 32 1)))) := by
  have hreach : Reachable (setPrivateKeyRaw initialState (natToBytes 32 1)).1 :=
    Reachable.setPriv initialState (natToBytes 32 1) Reachable.init
  have hpkey : ((setPrivateKeyRaw initialState (natToBytes 32 1)).1).pkey =
      some ⟨bytesToNat (natToBytes 32 1), mulGen (bytesToNat (natToBytes 32 1))⟩ := by
    rw [setPrivateKeyRaw_of_valid initialState (natToBytes 32 1)
      (natToBytes_length 32 1) (by decide) (by decide)]
  exact ⟨hreach, hpkey,
    claim_C5_key_pair_coherence.1 _ hreach _ hpkey,
    claim_C5_key_pair_coherence.2 initialState (natToBytes 32 1)
      (natToBytes_length 32 1) (by decide) (by decide)⟩

/-- C7: the uncompressed export is the 65-byte string
`0x04 ‖ x ‖ y` with 32-byte padded coordinates, the compressed export is
the 33-byte string `(0x02 + (y mod 2)) ‖ x`, and the TypeScript
`generateKeys` with no format argument returns the uncompressed
encoding. -/
theorem claim_C7_public_encoding_shapes (st : EcdhState) (kp : KeyPair)
    (x y : Fp) (hxy : secpCurve.Nonsingular x y)
    (hst : st.pkey = some kp) (hpub : kp.pub = .some hxy) :
    getPublicKeyRaw st 1 =
      .ok (4 :: (natToBytes 32 x.val ++ natToBytes 32 y.val)) ∧
    (4 :: (natToBytes 32 x.val ++ natToBytes 32 y.val)).length = 65 ∧
    getPublicKeyRaw st 0 = .ok ((2 + y.val % 2) :: natToBytes 32 x.val) ∧
    ((2 + y.val % 2) :: natToBytes 32 x.val).length = 33 ∧
    (y.val % 2 = 0 → 2 + y.val % 2 = 2) ∧
    (y.val % 2 = 1 → 2 + y.val % 2 = 3) ∧
    (∀ s : ℕ, (tsGenerateKeys st s none).2 = .ok (encodePoint false (mulGen s))) ∧
    (∀ (s : ℕ) (xs ys : Fp) (hs : secpCurve.Nonsingular xs ys),
      mulGen s = .some hs → (encodePoint false (mulGen s)).length = 65) := by
  obtain ⟨pk⟩ := st
  simp only at hst
  subst hst
  refine ⟨?_, ?_, ?_, ?_, fun h => by omega, fun h => by omega, fun s => rfl, ?_⟩
  · show Except.ok (encodePoint false kp.pub) = _
    rw [hpub]
    rfl
  · simp [natToBytes_length]
  · show Except.ok (encodePoint true kp.pub) = _
    rw [hpub]
    rfl
  · simp [natToBytes_length]
  · intro s xs ys hs hmul
    rw [hmul, encodePoint]
    simp [natToBytes_length]

theorem claim_C7_witness :
    getPublicKeyRaw ⟨some ⟨1, secpG⟩⟩ 1 =
      .ok (4 :: (natToBytes 32 (secp_gx : Fp).val ++ natToBytes 32 (secp_gy : Fp).val)) ∧
    (4 :: (natToBytes 32 (secp_gx : Fp).val ++ natToBytes 32 (secp_gy : Fp).val)).length
      = 65 ∧
    getPublicKeyRaw ⟨some ⟨1, secpG⟩⟩ 0 =
      .ok ((2 + (secp_gy : Fp).val % 2) :: natToBytes 32 (secp_gx : Fp).val) ∧
    (tsGenerateKeys ⟨some ⟨1, secpG⟩⟩ 1 none).2 = .ok (encodePoint false (mulGen 1)) := by
  have h := claim_C7_public_encoding_shapes ⟨some ⟨1, secpG⟩⟩ ⟨1, secpG⟩
    (secp_gx : Fp) (secp_gy : Fp) secp_g_nonsingular rfl rfl
  exact ⟨h.1, h.2.1, h.2.2.1, h.2.2.2.2.2.2.1 1⟩

theorem mulGen_eq (k : ℕ) : mulGen k = k • secpG := pSmul_eq k secpG

theorem computeSecretRaw_keyed_eq (kp : KeyPair) (bs : List ℕ) :
    computeSecretRaw ⟨some kp⟩ bs =
      if bs.length ≠ 33 ∧ bs.length ≠ 65 then .error .invalidPublicKey
      else
        match decodePoint bs with
        | none => .error .invalidPublicKey
        | some P =>
          match pSmul kp.priv P with
          | .zero => .error .internalError
          | @WeierstrassCurve.Affine.Point.some _ _ _ x _ _ =>
            .ok (natToBytes 32 x.val) := rfl

theorem computeSecretRaw_decode_none (kp : KeyPair) (bs : List ℕ)
    (hlen : bs.length = 33 ∨ bs.length = 65) (hdec : decodePoint bs = none) :
    computeSecretRaw ⟨some kp⟩ bs = .error .invalidPublicKey := by
  rw [computeSecretRaw_keyed_eq, if_neg (fun hcon => hlen.elim hcon.1 hcon.2)]
  simp only [hdec]

theorem computeSecretRaw_decode_some (kp : KeyPair) (bs : List ℕ)
    (P : secpCurve.Point) (hdec : decodePoint bs = some P) :
    computeSecretRaw ⟨some kp⟩ bs =
      match kp.priv • P with
      | .zero => .error .internalError
      | @WeierstrassCurve.Affine.Point.some _ _ _ x _ _ =>
        .ok (natToBytes 32 x.val) := by
  have hlen := decodePoint_some_length bs P hdec
  rw [computeSecretRaw_keyed_eq, if_neg (fun hcon => hlen.elim hcon.1 hcon.2)]
  simp only [hdec, pSmul_eq]

theorem decodePoint_none_33_badHead (bs : List ℕ) (pb : ℕ) (h33 : bs.length = 33)
    (hh : bs.head? = some pb) (h2 : pb ≠ 2) (h3 : pb ≠ 3) :
    decodePoint bs = none := by
  rw [decodePoint, if_neg (by omega), if_pos h33]
  simp only [hh]
  rw [if_neg (fun h => h.elim h2 h3)]

theorem decodePoint_none_65_badHead (bs : List ℕ) (h65 : bs.length = 65)
    (hh : bs.head? ≠ some 4) : decodePoint bs = none := by
  rw [decodePoint, if_pos h65, if_neg hh]

theorem decodePoint_none_65_off_curve (bs : List ℕ) (h65 : bs.length = 65)
    (hh : bs.head? = some 4)
    (heq : ¬ secpCurve.Equation ((bytesToNat ((bs.drop 1).take 32) : ℕ) : Fp)
      ((bytesToNat (bs.drop 33) : ℕ) : Fp)) : decodePoint bs = none := by
  rw [decodePoint, if_pos h65, if_pos hh]
  by_cases hin : bytesToNat ((bs.drop 1).take 32) < secp_p ∧
      bytesToNat (bs.drop 33) < secp_p
  · rw [if_pos hin, dif_neg heq]
  · rw [if_neg hin]

theorem decodeCompressed_none_of_no_root (pb xn : ℕ)
    (h1 : ¬ secpCurve.Equation ((xn : ℕ) : Fp) (sqrtFp ((xn : Fp) ^ 3 + 7)))
    (h2 : ¬ secpCurve.Equation ((xn : ℕ) : Fp) (-(sqrtFp ((xn : Fp) ^ 3 + 7)))) :
    decodeCompressed pb xn = none := by
  rw [decodeCompressed]
  by_cases hx : xn < secp_p
  · rw [if_pos hx]
    by_cases hpar : (candidateY pb xn).val % 2 = pb % 2
    · rw [if_pos hpar]
      have hne : ¬ secpCurve.Equation ((xn : ℕ) : Fp) (candidateY pb xn) := by
        rw [candidateY]
        by_cases hc : (sqrtFp ((xn : Fp) ^ 3 + 7)).val % 2 = pb % 2
        · rw [if_pos hc]; exact h1
        · rw [if_neg hc]; exact h2
      rw [dif_neg hne]
    · rw [if_neg hpar]
  · rw [if_neg hx]

theorem decodePoint_none_33_no_root (bs : List ℕ) (pb : ℕ) (h33 : bs.length = 33)
    (hh : bs.head? = some pb) (hpb : pb = 2 ∨ pb = 3)
    (h1 : ¬ secpCurve.Equation ((bytesToNat (bs.drop 1) : ℕ) : Fp)
      (sqrtFp (((bytesToNat (bs.drop 1) : ℕ) : Fp) ^ 3 + 7)))
    (h2 : ¬ secpCurve.Equation ((bytesToNat (bs.drop 1) : ℕ) : Fp)
      (-(sqrtFp (((bytesToNat (bs.drop 1) : ℕ) : Fp) ^ 3 + 7)))) :
    decodePoint bs = none := by
  rw [decodePoint, if_neg (by omega), if_pos h33]
  simp only [hh]
  rw [if_pos hpb]
  exact decodeCompressed_none_of_no_root pb _ h1 h2

/-- C2: on a keyed session, a remote public key that decodes to a curve
point `P` with `priv • P` finite yields exactly the 32-byte big-endian
encoding of the x-coordinate of `priv • P` (the y-coordinate is
discarded, leading zero bytes preserved by the fixed-width encoding). -/
theorem claim_C2_shared_secret_value (st : EcdhState) (kp : KeyPair)
    (bs : List ℕ) (P : secpCurve.Point) (x y : Fp)
    (hxy : secpCurve.Nonsingular x y)
    (hst : st.pkey = some kp)
    (hdec : decodePoint bs = some P)
    (hmul : kp.priv • P = WeierstrassCurve.Affine.Point.some hxy) :
    computeSecretRaw st bs = .ok (natToBytes 32 x.val) ∧
    (natToBytes 32 x.val).length = 32 := by
  obtain ⟨pk⟩ := st
  simp only at hst
  subst hst
  constructor
  · rw [computeSecretRaw_decode_some kp bs P hdec, hmul]
  · exact natToBytes_length 32 x.val

theorem claim_C2_witness :
    (⟨some ⟨1, secpG⟩⟩ : EcdhState).pkey = some ⟨1, secpG⟩ ∧
    computeSecretRaw ⟨some ⟨1, secpG⟩⟩ (encodePoint false secpG) =
      .ok (natToBytes 32 (secp_gx : Fp).val) ∧
    (natToBytes 32 (secp_gx : Fp).val).length = 32 := by
  have h := claim_C2_shared_secret_value ⟨some ⟨1, secpG⟩⟩ ⟨1, secpG⟩
    (encodePoint false secpG) secpG (secp_gx : Fp) (secp_gy : Fp)
    secp_g_nonsingular rfl (decodePoint_encodePoint secp_g_nonsingular)
    (one_nsmul secpG)
  exact ⟨rfl, h.1, h.2⟩

/-- C3: on a keyed session the exchange rejects, with the distinct
invalid-public-key error, every input of length other than 33 or 65 (the
length gate runs before any decoding), every 33-byte input whose prefix
is not 0x02/0x03, every 65-byte input whose prefix is not 0x04, every
65-byte input whose coordinates fail the curve equation — including the
0x04-plus-64-zero-bytes point-at-infinity regression case — and that
error is distinguishable from all other error kinds. -/
theorem claim_C3_public_key_validation (st : EcdhState) (kp : KeyPair)
    (hst : st.pkey = some kp) :
    (∀ bs : List ℕ, bs.length ≠ 33 → bs.length ≠ 65 →
      computeSecretRaw st bs = .error .invalidPublicKey) ∧
    (∀ (bs : List ℕ) (pb : ℕ), bs.length = 33 → bs.head? = some pb →
      pb ≠ 2 → pb ≠ 3 → computeSecretRaw st bs = .error .invalidPublicKey) ∧
    (∀ bs : List ℕ, bs.length = 65 → bs.head? ≠ some 4 →
      computeSecretRaw st bs = .error .invalidPublicKey) ∧
    (∀ bs : List ℕ, bs.length = 65 → bs.head? = some 4 →
      ¬ secpCurve.Equation ((bytesToNat ((bs.drop 1).take 32) : ℕ) : Fp)
        ((bytesToNat (bs.drop 33) : ℕ) : Fp) →
      computeSecretRaw st bs = .error .invalidPublicKey) ∧
    (∀ (bs : List ℕ) (pb : ℕ), bs.length = 33 → bs.head? = some pb →
      pb = 2 ∨ pb = 3 →
      ¬ secpCurve.Equation ((bytesToNat (bs.drop 1) : ℕ) : Fp)
        (sqrtFp (((bytesToNat (bs.drop 1) : ℕ) : Fp) ^ 3 + 7)) →
      ¬ secpCurve.Equation ((bytesToNat (bs.drop 1) : ℕ) : Fp)
        (-(sqrtFp (((bytesToNat (bs.drop 1) : ℕ) : Fp) ^ 3 + 7))) →
      computeSecretRaw st bs = .error .invalidPublicKey) ∧
    computeSecretRaw st (4 :: List.replicate 64 0) = .error .invalidPublicKey ∧
    (EcdhError.invalidPublicKey ≠ EcdhError.noKeyPair ∧
      EcdhError.invalidPublicKey ≠ EcdhError.invalidPrivateKeySize ∧
      EcdhError.invalidPublicKey ≠ EcdhError.privateKeyOutOfRange ∧
      EcdhError.invalidPublicKey ≠ EcdhError.internalError) := by
  obtain ⟨pk⟩ := st
  simp only at hst
  subst hst
  have hinfty : computeSecretRaw ⟨some kp⟩ (4 :: List.replicate 64 0) =
      .error .invalidPublicKey := by
    exact computeSecretRaw_decode_none kp (4 :: List.replicate 64 0)
      (Or.inr (by decide))
      (decodePoint_none_65_off_curve (4 :: List.replicate 64 0) (by decide) rfl
        (by decide))
  refine ⟨?_, ?_, ?_, ?_, ?_, hinfty, by decide, by decide, by decide, by decide⟩
  · intro bs h33 h65
    rw [computeSecretRaw_keyed_eq, if_pos ⟨h33, h65⟩]
  · intro bs pb h33 hh h2 h3
    exact computeSecretRaw_decode_none kp bs (Or.inl h33)
      (decodePoint_none_33_badHead bs pb h33 hh h2 h3)
  · intro bs h65 hh
    exact computeSecretRaw_decode_none kp bs (Or.inr h65)
      (decodePoint_none_65_badHead bs h65 hh)
  · intro bs h65 hh heq
    exact computeSecretRaw_decode_none kp bs (Or.inr h65)
      (decodePoint_none_65_off_curve bs h65 hh heq)
  · intro bs pb h33 hh hpb h1 h2
    exact computeSecretRaw_decode_none kp bs (Or.inl h33)
      (decodePoint_none_33_no_root bs pb h33 hh hpb h1 h2)

theorem claim_C3_witness :
    computeSecretRaw ⟨some ⟨1, secpG⟩⟩ (List.replicate 64 0) =
      .error .invalidPublicKey ∧
    computeSecretRaw ⟨some ⟨1, secpG⟩⟩ (9 :: List.replicate 32 0) =
      .error .invalidPublicKey ∧
    computeSecretRaw ⟨some ⟨1, secpG⟩⟩ (9 :: List.replicate 64 0) =
      .error .invalidPublicKey ∧
    computeSecretRaw ⟨some ⟨1, secpG⟩⟩ (2 :: List.replicate 32 0) =
      .error .invalidPublicKey ∧
    computeSecretRaw ⟨some ⟨1, secpG⟩⟩ (4 :: List.replicate 64 0) =
      .error .invalidPublicKey := by
  have h := claim_C3_public_key_validation ⟨some ⟨1, secpG⟩⟩ ⟨1, secpG⟩ rfl
  exact ⟨h.1 (List.replicate 64 0) (by decide) (by decide),
    h.2.1 (9 :: List.replicate 32 0) 9 (by decide) rfl (by decide) (by decide),
    h.2.2.1 (9 :: List.replicate 64 0) (by decide) (by decide),
    h.2.2.2.2.1 (2 :: List.replicate 32 0) 2 (by decide) rfl (Or.inl rfl)
      (by decide) (by decide),
    h.2.2.2.2.2.1⟩

/-- C1: two sessions that imported valid scalars `a` and `b` and exchanged
their exported (uncompressed) public keys compute byte-identical shared
secrets — ECDH commutativity. -/
theorem claim_C1_ecdh_commutativity (a b : ℕ)
    (ha1 : 1 ≤ a) (ha2 : a < secp_n) (hb1 : 1 ≤ b) (hb2 : b < secp_n)
    (hfa : mulGen a ≠ WeierstrassCurve.Affine.Point.zero)
    (hfb : mulGen b ≠ WeierstrassCurve.Affine.Point.zero)
    (pubA pubB : List ℕ)
    (hA : getPublicKeyRaw (setPrivateKeyRaw initialState (natToBytes 32 a)).1 1 =
      .ok pubA)
    (hB : getPublicKeyRaw (setPrivateKeyRaw initialState (natToBytes 32 b)).1 1 =
      .ok pubB) :
    computeSecretRaw (setPrivateKeyRaw initialState (natToBytes 32 a)).1 pubB =
      computeSecretRaw (setPrivateKeyRaw initialState (natToBytes 32 b)).1 pubA := by
  have hra : bytesToNat (natToBytes 32 a) = a :=
    bytesToNat_natToBytes 32 a (lt_trans ha2 secp_n_lt_256pow)
  have hrb : bytesToNat (natToBytes 32 b) = b :=
    bytesToNat_natToBytes 32 b (lt_trans hb2 secp_n_lt_256pow)
  have hstA : (setPrivateKeyRaw initialState (natToBytes 32 a)).1 =
      ⟨some ⟨a, mulGen a⟩⟩ := by
    rw [setPrivateKeyRaw_of_valid initialState _ (natToBytes_length 32 a)
      (by rw [hra]; exact ha1) (by rw [hra]; exact ha2)]
    simp only [hra]
  have hstB : (setPrivateKeyRaw initialState (natToBytes 32 b)).1 =
      ⟨some ⟨b, mulGen b⟩⟩ := by
    rw [setPrivateKeyRaw_of_valid initialState _ (natToBytes_length 32 b)
      (by rw [hrb]; exact hb1) (by rw [hrb]; exact hb2)]
    simp only [hrb]
  obtain ⟨xa, ya, hna, hmga⟩ :
      ∃ (xa : Fp) (ya : Fp) (hna : secpCurve.Nonsingular xa ya),
        mulGen a = WeierstrassCurve.Affine.Point.some hna := by
    cases hga : mulGen a with
    | zero => exact absurd hga hfa
    | some h => exact ⟨_, _, h, rfl⟩
  obtain ⟨xb, yb, hnb, hmgb⟩ :
      ∃ (xb : Fp) (yb : Fp) (hnb : secpCurve.Nonsingular xb yb),
        mulGen b = WeierstrassCurve.Affine.Point.some hnb := by
    cases hgb : mulGen b with
    | zero => exact absurd hgb hfb
    | some h => exact ⟨_, _, h, rfl⟩
  have hpubA : pubA = encodePoint false (mulGen a) := by
    rw [hstA] at hA
    have hred : getPublicKeyRaw ⟨some ⟨a, mulGen a⟩⟩ 1 =
        .ok (encodePoint false (mulGen a)) := rfl
    rw [hred] at hA
    exact (Except.ok.inj hA).symm
  have hpubB : pubB = encodePoint false (mulGen b) := by
    rw [hstB] at hB
    have hred : getPublicKeyRaw ⟨some ⟨b, mulGen b⟩⟩ 1 =
        .ok (encodePoint false (mulGen b)) := rfl
    rw [hred] at hB
    exact (Except.ok.inj hB).symm
  have hdecA : decodePoint (encodePoint false (mulGen a)) = some (mulGen a) := by
    rw [hmga]
    exact decodePoint_encodePoint hna
  have hdecB : decodePoint (encodePoint false (mulGen b)) = some (mulGen b) := by
    rw [hmgb]
    exact decodePoint_encodePoint hnb
  subst hpubA
  subst hpubB
  rw [hstA, hstB,
    computeSecretRaw_decode_some ⟨a, mulGen a⟩ _ _ hdecB,
    computeSecretRaw_decode_some ⟨b, mulGen b⟩ _ _ hdecA]
  have hcomm : a • mulGen b = b • mulGen a := by
    rw [mulGen_eq, mulGen_eq, smul_smul, smul_smul, Nat.mul_comm]
  dsimp only
  rw [hcomm]

theorem claim_C1_witness :
    (1 ≤ 1 ∧ 1 < secp_n) ∧
    mulGen 1 ≠ WeierstrassCurve.Affine.Point.zero ∧
    computeSecretRaw (setPrivateKeyRaw initialState (natToBytes 32 1)).1
        (encodePoint false (mulGen 1)) =
      computeSecretRaw (setPrivateKeyRaw initialState (natToBytes 32 1)).1
        (encodePoint false (mulGen 1)) := by
  have hne : mulGen 1 ≠ WeierstrassCurve.Affine.Point.zero := fun h =>
    WeierstrassCurve.Affine.Point.noConfusion h
  have hok : getPublicKeyRaw (setPrivateKeyRaw initialState (natToBytes 32 1)).1 1 =
      .ok (encodePoint false (mulGen 1)) := rfl
  exact ⟨⟨le_refl 1, by decide⟩, hne,
    claim_C1_ecdh_commutativity 1 1 (le_refl 1) (by decide) (le_refl 1) (by decide)
      hne hne _ _ hok hok⟩

end QuickCrypto
